import Mathlib

/-
Verification of the holoviews option/compositor specification parser
(src/holoviews/util/parser.py) via a shallow embedding.

Python dictionaries are modelled as insertion-ordered association lists
(`PyDict`): assignment updates the first matching key in place and appends
otherwise, matching CPython dict semantics on duplicate-free key lists.
Python exceptions are modelled by the `PyErr` error type of an `Except`
monad: `SyntaxError`, `KeyError` and `IndexError` are distinguished,
since the parser's error contract depends on which one escapes.
The pyparsing library itself (grammar construction, `scanString`,
`parseString`) is an external collaborator: its outputs are modelled as
explicit inputs (token trees `PTok`, scan spans `(start, stop)`, parsed
groups), and the repository code that consumes those outputs is embedded
faithfully.  Python `eval` is likewise abstracted as a function argument
`ev` returning `none` on any evaluation failure.
-/

namespace HV

inductive PyErr where
  | synError : String → PyErr
  | keyError : String → PyErr
  | indexError : PyErr
deriving DecidableEq

inductive PyVal where
  | bool : Bool → PyVal
  | int : Int → PyVal
  | str : String → PyVal
deriving DecidableEq

/-- Insertion-ordered association list standing for a Python `dict` with
`String` keys. -/
abbrev PyDict (β : Type) : Type := List (String × β)

/-- Python `d[k]` as a total lookup: first binding of `k`, if any. -/
def dlookup (k : String) : PyDict β → Option β
  | [] => none
  | p :: ps => if p.1 = k then some p.2 else dlookup k ps

/-- Python `d[k] = v`: update the binding of `k` in place if present
(keeping its position), otherwise append a new binding. -/
def dinsert (k : String) (v : β) : PyDict β → PyDict β
  | [] => [(k, v)]
  | p :: ps => if p.1 = k then (k, v) :: ps else p :: dinsert k v ps

/-- In-place modification `f` of the value stored at `k` (used for
Python's `d[k].update(...)`). -/
def dmodify (k : String) (f : β → β) : PyDict β → PyDict β
  | [] => []
  | p :: ps => if p.1 = k then (p.1, f p.2) :: ps else p :: dmodify k f ps

/-- Python `d.update(new)`: assign every binding of `new`, in order. -/
def updateDict (d new : PyDict β) : PyDict β :=
  new.foldl (fun d p => dinsert p.1 p.2 d) d

/-- Keys of `d` are pairwise distinct (always true of a real Python dict). -/
def nodupKeys (d : PyDict β) : Prop := (d.map Prod.fst).Nodup

instance (d : PyDict β) : Decidable (nodupKeys d) := by
  unfold nodupKeys; infer_instance

/-- Two-level lookup into a dict of dicts. -/
def dlookup2 (m : PyDict (PyDict β)) (c k : String) : Option β :=
  match dlookup c m with
  | some d => dlookup k d
  | none => none

instance [DecidableEq ε] [DecidableEq α] : DecidableEq (Except ε α) :=
  fun a b =>
    match a, b with
    | Except.ok x, Except.ok y => decidable_of_iff (x = y) (by simp)
    | Except.error x, Except.error y => decidable_of_iff (x = y) (by simp)
    | Except.ok _, Except.error _ => Decidable.isFalse (by simp)
    | Except.error _, Except.ok _ => Decidable.isFalse (by simp)

/-- Left-biased choice on `Option` (Python's "first defined" reading). -/
def oOr (a b : Option β) : Option β :=
  match a with
  | some x => some x
  | none => b

/-- The ASCII whitespace characters stripped by Python's `str.strip()`. -/
def wsp (c : Char) : Bool :=
  c == ' ' || c == '\t' || c == '\n' || c == '\r' || c == '\x0b' || c == '\x0c'

/-- Python `s.strip()`: remove leading and trailing whitespace.
(Implemented on the character list so that it evaluates by reduction.) -/
def strip (s : String) : String :=
  ⟨((s.data.dropWhile wsp).reverse.dropWhile wsp).reverse⟩

/-- Python slice `s[:n]` (by characters). -/
def strTake (s : String) (n : Nat) : String := ⟨s.data.take n⟩

/-- Python slice `s[n:]` (by characters). -/
def strDrop (s : String) (n : Nat) : String := ⟨s.data.drop n⟩

/-- Python `c in s` for a single character. -/
def strContains (s : String) (c : Char) : Bool := s.data.contains c

/-- Python `s.endswith(suffix)`. -/
def strEndsWith (s suf : String) : Bool :=
  s.data.drop (s.data.length - suf.data.length) == suf.data

/-- `pat` is a leading segment of `l`. -/
def leadsWith : List Char → List Char → Bool
  | [], _ => true
  | _ :: _, [] => false
  | p :: ps, c :: cs => p == c && leadsWith ps cs

/-- Scanner for `replaceList`: at skip count `0` a match of `pat` emits
`rep` and schedules the remaining `pat.length - 1` matched characters to
be skipped; a positive skip count drops the character. -/
def replaceGo (pat rep : List Char) : List Char → Nat → List Char
  | [], _ => []
  | _ :: rest, Nat.succ k => replaceGo pat rep rest k
  | c :: rest, 0 =>
    if !pat.isEmpty && leadsWith pat (c :: rest) then
      rep ++ replaceGo pat rep rest (pat.length - 1)
    else c :: replaceGo pat rep rest 0

/-- Replace every occurrence of `pat` by `rep`, scanning left to right
over non-overlapping matches (Python `str.replace`). -/
def replaceList (pat rep l : List Char) : List Char :=
  replaceGo pat rep l 0

/-- Python `s.replace(pat, rep)`. -/
def strReplace (s pat rep : String) : String := ⟨replaceList pat.data rep.data s.data⟩

/-- Python `s.split(c)` for a single-character separator: the recursion
accumulates the current (reversed) field and starts a new field at each
separator. -/
def splitOnCharGo (c : Char) : List Char → List Char → List (List Char)
  | [], cur => [cur.reverse]
  | x :: xs, cur =>
    if x == c then cur.reverse :: splitOnCharGo c xs []
    else splitOnCharGo c xs (x :: cur)

/-- Python `s.split(c)`. -/
def splitOnChar (c : Char) (s : String) : List String :=
  (splitOnCharGo c s.data []).map (fun l => (⟨l⟩ : String))

/-- A (possibly nested) pyparsing token: `ParseResults.asList()` elements
are either strings or nested lists. -/
inductive PTok where
  | str : String → PTok
  | list : List PTok → PTok

/-- The `mode` argument of `collect_tokens`/`todict`: selects `(%s)` or
`[%s]` as the delimiter pattern for reconstructed nested groups. -/
inductive Mode where
  | parens
  | brackets

/-- `inner % s` for the delimiter pattern selected by the mode. -/
def wrap (m : Mode) (s : String) : String :=
  match m with
  | Mode.parens => "(" ++ s ++ ")"
  | Mode.brackets => "[" ++ s ++ "]"

end HV

namespace HV.Parser

/-- `Parser.abort_on_eval_failure` class attribute: `False` in the source. -/
def abort_on_eval_failure : Bool := false

/-- `Parser._strip_commas`: drop one trailing comma if present, then one
leading comma if present.  Python indexes `kw[-1]` and `kw[0]`, so the
empty string (resp. a string reduced to empty) raises `IndexError`,
modelled as `none`. -/
def _strip_commas (kw : String) : Option String :=
  match kw.data with
  | [] => none
  | l =>
    let l2 := if l.getLast? == some ',' then l.dropLast else l
    match l2 with
    | [] => none
    | c :: cs => if c == ',' then some ⟨cs⟩ else some ⟨c :: cs⟩

mutual

/-- Flatten one pyparsing token to a string, wrapping nested lists with
the mode's delimiters (the uniform recursion to which the two-level
unrolling inside `Parser.recurse_token` collapses). -/
def flattenTok (m : HV.Mode) : HV.PTok → String
  | HV.PTok.str s => s
  | HV.PTok.list ts => HV.wrap m (flattenToks m ts)

/-- Concatenation of the flattened elements of a token list. -/
def flattenToks (m : HV.Mode) : List HV.PTok → String
  | [] => ""
  | t :: ts => flattenTok m t ++ flattenToks m ts

end

/-- `Parser.recurse_token`: flatten a nested token list into a single
delimited string. -/
def recurse_token (m : HV.Mode) (toks : List HV.PTok) : String :=
  HV.wrap m (flattenToks m toks)

/-- Loop body of `Parser.collect_tokens` over `parseresult.asList()`:
a nested list is flattened and concatenated onto the previous token
(`tokens[-1]` raises `IndexError` when there is none, modelled as
`none`); a scalar equal to a bare comma is skipped; any other scalar is
comma-stripped and appended. -/
def collect_go (m : HV.Mode) : List HV.PTok → List String → Option (List String)
  | [], tokens => some tokens
  | HV.PTok.list ts :: rest, tokens =>
    match tokens.getLast? with
    | none => none
    | some last => collect_go m rest (tokens.dropLast ++ [last ++ recurse_token m ts])
  | HV.PTok.str s :: rest, tokens =>
    if HV.strip s = "," then collect_go m rest tokens
    else
      match _strip_commas s with
      | none => none
      | some kw => collect_go m rest (tokens ++ [kw])

/-- `Parser.collect_tokens`: `None` input yields `[]`; otherwise run the
collection loop starting from an empty token list. -/
def collect_tokens (parseresult : Option (List HV.PTok)) (m : HV.Mode) : Option (List String) :=
  match parseresult with
  | none => some []
  | some l => collect_go m l []

/-- `'=' in el`. -/
def hasEq (el : String) : Bool := HV.strContains el '='

/-- `(')' in el) or ('}' in el)`. -/
def hasClose (el : String) : Bool := HV.strContains el ')' || HV.strContains el '\x7d'

/-- Run accumulator for `runsBy`: `b` is the key of the run being built,
`cur` holds its members in reverse. -/
def runsByGo (p : String → Bool) : List String → Bool → List String → List (Bool × List String)
  | [], b, cur => [(b, cur.reverse)]
  | t :: ts, b, cur =>
    if p t == b then runsByGo p ts b (t :: cur)
    else (b, cur.reverse) :: runsByGo p ts (p t) [t]

/-- `itertools.groupby(tokens, key)` for a boolean key: the list of
maximal runs of tokens with the same key value, in order. -/
def runsBy (p : String → Bool) : List String → List (Bool × List String)
  | [] => []
  | t :: ts => runsByGo p ts (p t) [t]

/-- One run of the grouping loop in `Parser.todict`: a run of tokens
containing `'='` is appended to `grouped`; a run without `'='` is joined
(with a comma when any element contains `')'` or `'}'`, else with the
empty string) and concatenated onto `grouped[-1]`, which raises
`IndexError` when `grouped` is empty (modelled as `none`). -/
def runStep (acc : List String) (run : Bool × List String) : Option (List String) :=
  if run.1 then some (acc ++ run.2)
  else
    let joiner := if run.2.any hasClose then "," else ""
    match acc.getLast? with
    | none => none
    | some last => some (acc.dropLast ++ [last ++ joiner ++ String.intercalate joiner run.2])

/-- The full grouping pass of `Parser.todict` (the `for group in groupby`
loop building `grouped`). -/
def groupKeywords (tokens : List String) : Option (List String) :=
  (runsBy hasEq tokens).foldlM runStep []

/-- The fixed list of punctuation repairs applied to each assembled
keyword before evaluation. -/
def replacement_pairs : List (String × String) :=
  [("(,", "("), ("\x7b,", "\x7b"), ("=,", "="), (",:", ":"), (":,", ":"),
   (",,", ","), (",.", ".")]

/-- Apply the punctuation-repair substitutions, in order. -/
def applyReplacements (kw : String) : String :=
  replacement_pairs.foldl (fun k p => HV.strReplace k p.1 p.2) kw

/-- The per-keyword evaluation step of `Parser.todict`: evaluate the
repaired keyword with `ev` (modelling `eval('dict(%s)' % keyword)` in the
combined namespace); on failure either raise `SyntaxError` (when the
abort flag is set) or warn and keep the accumulated `kwargs` unchanged. -/
def evalStep (abort : Bool) (ev : String → Option (HV.PyDict HV.PyVal))
    (kwargs : HV.PyDict HV.PyVal) (kw0 : String) : Except HV.PyErr (HV.PyDict HV.PyVal) :=
  match ev (applyReplacements kw0) with
  | some pairs => Except.ok (HV.updateDict kwargs pairs)
  | none =>
    if abort then
      Except.error (HV.PyErr.synError
        ("Could not evaluate keyword: " ++ applyReplacements kw0))
    else Except.ok kwargs

/-- `Parser.todict` after token collection: group the tokens, then fold
the evaluation step over the grouped keywords starting from `{}`. -/
def todict_tokens (abort : Bool) (ev : String → Option (HV.PyDict HV.PyVal))
    (tokens : List String) : Except HV.PyErr (HV.PyDict HV.PyVal) :=
  match groupKeywords tokens with
  | none => Except.error HV.PyErr.indexError
  | some grouped => grouped.foldlM (evalStep abort ev) []

/-- `Parser.todict`: collect the tokens of the parse result, then group
and evaluate them. -/
def todict (abort : Bool) (ev : String → Option (HV.PyDict HV.PyVal))
    (parseresult : Option (List HV.PTok)) (m : HV.Mode) : Except HV.PyErr (HV.PyDict HV.PyVal) :=
  match collect_tokens parseresult m with
  | none => Except.error HV.PyErr.indexError
  | some tokens => todict_tokens abort ev tokens

/-- The whole-line scan check shared verbatim by `OptsSpec.parse` and
`CompositorSpec.parse` (parser.py lines 330-337 and 414-421): the
scan (`scanString`) must produce exactly one match, and the consumed
prefix `line[:e]`, stripped, must equal the stripped line; otherwise a
`SyntaxError` is raised, naming the unconsumed remainder `line[e:]` in
the single-match case. -/
def scan_check (line : String) (parses : List (Nat × Nat)) : Except HV.PyErr Unit :=
  match parses with
  | [se] =>
    if HV.strip (HV.strTake line se.2) == HV.strip line then Except.ok ()
    else Except.error (HV.PyErr.synError
      ("Failed to parse remainder of string: " ++ HV.strDrop line se.2))
  | _ => Except.error (HV.PyErr.synError "Invalid specification syntax.")

end HV.Parser

namespace HV.OptsSpec

/-- Resolved normalization options (`dict(axiswise=..., framewise=...)`). -/
structure Norm where
  axiswise : Bool
  framewise : Bool
deriving DecidableEq

/-- The four admissible normalization tokens, in source order. -/
def norm_flags : List String :=
  ["+framewise", "-framewise", "+axiswise", "-axiswise"]

/-- `OptsSpec.process_normalization`: `none` models a parse group with no
`norm_options` key; `some opts` models `parse_group['norm_options'][0].asList()`.
Empty contents return `None`; otherwise repeated flags, unknown tokens
and contradictory sign pairs raise `SyntaxError` (in that order), and the
surviving lists resolve to the axiswise/framewise flag pair. -/
def process_normalization (norm_options : Option (List String)) : Except HV.PyErr (Option Norm) :=
  match norm_options with
  | none => Except.ok none
  | some opts =>
    if opts.isEmpty then Except.ok none
    else if norm_flags.any (fun o => decide (1 < opts.count o)) then
      Except.error (HV.PyErr.synError
        "Normalization specification must not contain repeated options")
    else if !(opts.all (fun o => norm_flags.contains o)) then
      Except.error (HV.PyErr.synError
        "Normalization option not one of +framewise, -framewise, +axiswise, -axiswise")
    else if opts.contains "+framewise" && opts.contains "-framewise" then
      Except.error (HV.PyErr.synError
        "Normalization specification cannot contain both +framewise and -framewise")
    else if opts.contains "+axiswise" && opts.contains "-axiswise" then
      Except.error (HV.PyErr.synError
        "Normalization specification cannot contain both +axiswise and -axiswise")
    else if decide (opts.length = 1) && HV.strEndsWith (opts.headD "") "framewise" then
      Except.ok (some (Norm.mk false (opts.contains "+framewise")))
    else if decide (opts.length = 1) && HV.strEndsWith (opts.headD "") "axiswise" then
      Except.ok (some (Norm.mk (opts.contains "+axiswise") false))
    else
      Except.ok (some (Norm.mk (opts.contains "+axiswise") (opts.contains "+framewise")))

/-- The three optional option blocks of one parsed `spec_group`:
`none` models the absence of the corresponding result name, mirroring the
`'x_options' in group` membership tests.  Normalization contents are the
flat token list handed to `process_normalization`; plot/style contents
are the nested token tree handed to `todict`. -/
structure GroupOpts where
  norm_options : Option (List String)
  plot_options : Option (List HV.PTok)
  style_options : Option (List HV.PTok)

/-- `GroupOpts` with none of the three categories present (the `{}`
yielded for trailing path specs without options). -/
def emptyGroupOpts : GroupOpts := GroupOpts.mk none none none

/-- One matched `spec_group` of the options grammar: a path specification
plus its (optional) option blocks. -/
structure SpecGroup where
  pathspec : String
  opts : GroupOpts

/-- The `has_options` test of `_group_paths_without_options`. -/
def has_options (g : GroupOpts) : Bool :=
  g.norm_options.isSome || g.plot_options.isSome || g.style_options.isSome

/-- Python `set.add`: append the element unless already present. -/
def setAdd (l : List String) (x : String) : List String :=
  if l.contains x then l else l ++ [x]

/-- Loop of `OptsSpec._group_paths_without_options` with the running
`active_pathspecs` set made explicit: each group's path is added to the
set; a group carrying at least one option category flushes the set
(paired with that group's options) and resets it; a nonempty trailing
set is emitted with empty options. -/
def group_paths_go (active : List String) :
    List SpecGroup → List (List String × GroupOpts)
  | [] => if active.isEmpty then [] else [(active, emptyGroupOpts)]
  | g :: rest =>
    let active2 := setAdd active g.pathspec
    if has_options g.opts then (active2, g.opts) :: group_paths_go [] rest
    else group_paths_go active2 rest

/-- `OptsSpec._group_paths_without_options` (the generator, as a list). -/
def _group_paths_without_options (groups : List SpecGroup) :
    List (List String × GroupOpts) :=
  group_paths_go [] groups

/-- One iteration of the `_merge_options` loop: create an empty dict for
the category when absent (`merged[option_type] = {}`), then update it in
place (`merged[option_type].update(options)`). -/
def merge_one (merged : HV.PyDict (HV.PyDict HV.PyVal)) (p : String × HV.PyDict HV.PyVal) :
    HV.PyDict (HV.PyDict HV.PyVal) :=
  let merged :=
    if (HV.dlookup p.1 merged).isSome then merged else HV.dinsert p.1 [] merged
  HV.dmodify p.1 (fun d => HV.updateDict d p.2) merged

/-- `OptsSpec._merge_options`: fold the categories of `new_opts` into a
copy of `old_opts`, creating an empty per-category dict when absent and
then `dict.update`-ing it key-wise. -/
def _merge_options (old_opts new_opts : HV.PyDict (HV.PyDict HV.PyVal)) :
    HV.PyDict (HV.PyDict HV.PyVal) :=
  new_opts.foldl merge_one old_opts

/-- The alias table mapping legacy option names to current ones
(copied verbatim, including the stray leading spaces in the
`figure_alpha` entry of the source). -/
def aliases : HV.PyDict String :=
  [("horizontal_spacing", "hspace"),
   ("vertical_spacing", "vspace"),
   ("figure_alpha", "    fig_alpha"),
   ("figure_bounds", "fig_bounds"),
   ("figure_inches", "fig_inches"),
   ("figure_latex", "fig_latex"),
   ("figure_rcparams", "fig_rcparams"),
   ("figure_size", "fig_size"),
   ("show_xaxis", "xaxis"),
   ("show_yaxis", "yaxis")]

/-- `cls.aliases.get(k, k)`. -/
def aliasGet (k : String) : String := (HV.dlookup k aliases).getD k

/-- The alias-rewriting dict comprehension
`{cls.aliases.get(k,k): v for k,v in opts.items()}`. -/
def aliasFold (opts : HV.PyDict HV.PyVal) : HV.PyDict HV.PyVal :=
  opts.foldl (fun d p => HV.dinsert (aliasGet p.1) p.2 d) []

/-- The deprecation table `[('GridImage', 'Image')]`. -/
def deprecations : List (String × String) := [("GridImage", "Image")]

/-- `OptsSpec.apply_deprecations`: rewrite the first dotted component of
the path through the deprecation table (first matching entry wins),
keeping the remaining components. -/
def apply_deprecations (path : String) : String :=
  match HV.splitOnChar '.' path with
  | [] => path
  | s0 :: rest =>
    match deprecations.find? (fun p => p.1 == s0) with
    | some p => String.intercalate "." (p.2 :: rest)
    | none => path

/-- A constructed `Options(**option_pairs)` object, modelled by its
keyword dictionary. -/
structure Options where
  kwargs : HV.PyDict HV.PyVal
deriving DecidableEq

/-- Build the per-group `options` dictionary of `OptsSpec.parse`
(lines 342-356): a `norm` entry when `process_normalization` resolves to
a dict, then alias-rewritten `plot` and `style` entries obtained through
`todict` with the category's bracket mode. -/
def process_group (ev : String → Option (HV.PyDict HV.PyVal)) (group : GroupOpts) :
    Except HV.PyErr (HV.PyDict (HV.PyDict HV.PyVal)) := do
  let norm? ← process_normalization group.norm_options
  let options : HV.PyDict (HV.PyDict HV.PyVal) :=
    match norm? with
    | some n =>
      HV.dinsert "norm"
        [("axiswise", HV.PyVal.bool n.axiswise), ("framewise", HV.PyVal.bool n.framewise)] []
    | none => []
  let options ←
    match group.plot_options with
    | some plotopts => do
      let opts ← HV.Parser.todict HV.Parser.abort_on_eval_failure ev (some plotopts)
        HV.Mode.brackets
      pure (HV.dinsert "plot" (aliasFold opts) options)
    | none => pure options
  let options ←
    match group.style_options with
    | some styleopts => do
      let opts ← HV.Parser.todict HV.Parser.abort_on_eval_failure ev (some styleopts)
        HV.Mode.parens
      pure (HV.dinsert "style" (aliasFold opts) options)
    | none => pure options
  pure options

/-- The body of `OptsSpec.parse` after the scan check (lines 339-367),
over the groups produced by `parseString`: group the paths, resolve each
group's options, merge them into the accumulating path dict, and finally
rewrite deprecated paths while wrapping each category's pairs in an
`Options` object. -/
def parse_body (ev : String → Option (HV.PyDict HV.PyVal)) (groups : List SpecGroup) :
    Except HV.PyErr (HV.PyDict (HV.PyDict Options)) := do
  let grouped := _group_paths_without_options groups
  let parse ← grouped.foldlM
    (fun parse pg => do
      let options ← process_group ev pg.2
      pure (pg.1.foldl
        (fun parse ps =>
          HV.dinsert ps (_merge_options ((HV.dlookup ps parse).getD []) options) parse)
        parse))
    []
  pure (parse.foldl
    (fun out p =>
      HV.dinsert (apply_deprecations p.1) (p.2.map (fun q => (q.1, Options.mk q.2))) out)
    [])

/-- `OptsSpec.parse`: the scan check over the raw line followed by the
parse body over the parsed groups. -/
def parse (ev : String → Option (HV.PyDict HV.PyVal)) (line : String)
    (scans : List (Nat × Nat)) (groups : List SpecGroup) :
    Except HV.PyErr (HV.PyDict (HV.PyDict Options)) := do
  let _ ← HV.Parser.scan_check line scans
  parse_body ev groups

end HV.OptsSpec

namespace HV.CompositorSpec

/-- One matched group of the compositor grammar: `mode` is optional to
model the `'mode' in group` membership test; `spec` is the token list
`group['spec'].asList()[0]`; `op_settings` is the optional bracketed
settings tree. -/
structure CompGroup where
  mode : Option String
  op : String
  spec : List String
  value : String
  op_settings : Option (List HV.PTok)

/-- A constructed `Compositor(spec, operation, value, mode, **kwargs)`
definition, with the operation identified by its registered name. -/
structure CompositorDef where
  spec : String
  op : String
  value : String
  mode : String
  kwargs : HV.PyDict HV.PyVal
deriving DecidableEq

/-- One iteration of the `CompositorSpec.parse` loop (lines 424-441):
mode validation, then the `opmap[group['op']]` subscript — which raises
`KeyError` when the operation is unregistered — then the overlay-spec
join, the (unreachable-when-missing) membership re-check of line 434,
the optional settings evaluation, and the append of the new definition. -/
def comp_group_step (opNames : List String) (ev : String → Option (HV.PyDict HV.PyVal))
    (defs : List CompositorDef) (g : CompGroup) : Except HV.PyErr (List CompositorDef) :=
  match g.mode with
  | none => Except.error (HV.PyErr.synError "Either data or display mode must be specified.")
  | some m =>
    if !(m == "data" || m == "display") then
      Except.error (HV.PyErr.synError "Either data or display mode must be specified.")
    else if !(opNames.contains g.op) then
      Except.error (HV.PyErr.keyError g.op)
    else
      let spec := String.intercalate " " g.spec
      if !(opNames.contains g.op) then
        Except.error (HV.PyErr.synError
          ("Operation " ++ g.op ++ " not available for use with compositors."))
      else do
        let kwargs ←
          match g.op_settings with
          | some s =>
            HV.Parser.todict HV.Parser.abort_on_eval_failure ev (some s) HV.Mode.brackets
          | none => pure []
        pure (defs ++ [CompositorDef.mk spec g.op g.value m kwargs])

/-- The body of `CompositorSpec.parse` after the scan check, over the
groups produced by `parseString` and the registered operation names
(`opmap` keys). -/
def parse_body (opNames : List String) (ev : String → Option (HV.PyDict HV.PyVal))
    (groups : List CompGroup) : Except HV.PyErr (List CompositorDef) :=
  groups.foldlM (comp_group_step opNames ev) []

/-- `CompositorSpec.parse`: the scan check over the raw line followed by
the parse body. -/
def parse (opNames : List String) (ev : String → Option (HV.PyDict HV.PyVal))
    (line : String) (scans : List (Nat × Nat)) (groups : List CompGroup) :
    Except HV.PyErr (List CompositorDef) := do
  let _ ← HV.Parser.scan_check line scans
  parse_body opNames ev groups

end HV.CompositorSpec

namespace HV.Parser

/-- The joiner chosen for a continuation run (specification-side name for
the joining rule of `todict`). -/
def joinerOf (elems : List String) : String :=
  if elems.any hasClose then "," else ""

/-- Specification-side description of the default (non-aborting) keyword
evaluation: fold over the grouped keywords, keeping the accumulated
dictionary unchanged on a failed evaluation and updating it with the
evaluated pairs otherwise. -/
def successFold (ev : String → Option (HV.PyDict HV.PyVal)) (grouped : List String) :
    HV.PyDict HV.PyVal :=
  grouped.foldl
    (fun kwargs kw0 =>
      match ev (applyReplacements kw0) with
      | some pairs => HV.updateDict kwargs pairs
      | none => kwargs)
    []

/-- Specification-side description of flat token collection: strip each
token in order, failing on the first token `_strip_commas` rejects. -/
def stripAll : List String → Option (List String)
  | [] => some []
  | s :: ss =>
    match _strip_commas s, stripAll ss with
    | some t, some ts => some (t :: ts)
    | _, _ => none

end HV.Parser

namespace HV

/-- Concrete evaluator for the two-keyword merge example: evaluates the
keywords produced by the line `A (x=1) A (y=2)`. -/
def evC2 : String → Option (PyDict PyVal) := fun s =>
  if s = "x=1" then some [("x", PyVal.int 1)]
  else if s = "y=2" then some [("y", PyVal.int 2)] else none

/-- Concrete old options dictionary for the merge witness. -/
def oldC2 : PyDict (PyDict PyVal) :=
  [("a", [("x", PyVal.int 1), ("y", PyVal.int 2)])]

/-- Concrete new options dictionary for the merge witness. -/
def newC2 : PyDict (PyDict PyVal) :=
  [("a", [("y", PyVal.int 9), ("z", PyVal.int 3)]), ("b", [("k", PyVal.int 7)])]

/-- Concrete evaluator for the evaluation-failure example: `a=1` and
`b=2` evaluate, every other keyword fails. -/
def evC7 : String → Option (PyDict PyVal) := fun s =>
  if s = "a=1" then some [("a", PyVal.int 1)]
  else if s = "b=2" then some [("b", PyVal.int 2)] else none

theorem dlookup_dinsert (k k' : String) (v : β) (d : PyDict β) :
    dlookup k' (dinsert k v d) = if k = k' then some v else dlookup k' d := by
  induction d with
  | nil => simp [dinsert, dlookup]
  | cons p ps ih =>
    by_cases h1 : p.1 = k <;> by_cases h2 : p.1 = k' <;> by_cases h3 : k = k' <;>
      simp_all [dinsert, dlookup]

theorem dlookup_dmodify (k k' : String) (f : β → β) (d : PyDict β) :
    dlookup k' (dmodify k f d) =
      if k = k' then (dlookup k' d).map f else dlookup k' d := by
  induction d with
  | nil => simp [dmodify, dlookup]
  | cons p ps ih =>
    by_cases h1 : p.1 = k <;> by_cases h2 : p.1 = k' <;> by_cases h3 : k = k' <;>
      simp_all [dmodify, dlookup]

theorem dlookup_eq_none_of_not_mem (k : String) (d : PyDict β)
    (h : k ∉ d.map Prod.fst) : dlookup k d = none := by
  induction d with
  | nil => rfl
  | cons p ps ih =>
    simp only [List.map_cons, List.mem_cons] at h
    push_neg at h
    simp only [dlookup, if_neg (fun hh : p.1 = k => h.1 hh.symm)]
    exact ih h.2

theorem dlookup_mem (k : String) (d : PyDict β) (v : β)
    (h : dlookup k d = some v) : (k, v) ∈ d := by
  induction d with
  | nil => simp [dlookup] at h
  | cons p ps ih =>
    by_cases h1 : p.1 = k
    · simp only [dlookup, if_pos h1] at h
      injection h with h
      subst h
      subst h1
      exact List.mem_cons_self _ _
    · simp only [dlookup, if_neg h1] at h
      exact List.mem_cons_of_mem _ (ih h)

theorem dlookup_updateDict (k : String) (d new : PyDict β) (h : nodupKeys new) :
    dlookup k (updateDict d new) = oOr (dlookup k new) (dlookup k d) := by
  induction new generalizing d with
  | nil => simp [updateDict, dlookup, oOr]
  | cons p ps ih =>
    unfold nodupKeys at h
    simp only [List.map_cons, List.nodup_cons] at h
    have step : updateDict d (p :: ps) = updateDict (dinsert p.1 p.2 d) ps := rfl
    rw [step, ih _ h.2, dlookup_dinsert]
    by_cases h2 : p.1 = k
    · have : dlookup k ps = none := by
        apply dlookup_eq_none_of_not_mem
        rw [← h2]
        exact h.1
      simp [dlookup, h2, this, oOr]
    · simp [dlookup, h2, oOr]

theorem dlookup_merge_one (c : String) (merged : PyDict (PyDict PyVal))
    (p : String × PyDict PyVal) :
    dlookup c (OptsSpec.merge_one merged p) =
      if p.1 = c then some (updateDict ((dlookup p.1 merged).getD []) p.2)
      else dlookup c merged := by
  unfold OptsSpec.merge_one
  cases h : dlookup p.1 merged with
  | some d0 =>
    simp only [h, Option.isSome_some, if_pos rfl, if_true]
    rw [dlookup_dmodify]
    by_cases h2 : p.1 = c
    · subst h2
      simp [h]
    · simp [h2]
  | none =>
    simp only [h, Option.isSome_none, Bool.false_eq_true, if_false]
    rw [dlookup_dmodify]
    by_cases h2 : p.1 = c
    · subst h2
      rw [dlookup_dinsert, if_pos rfl]
      simp [h]
    · rw [dlookup_dinsert, if_neg h2]
      simp [h2]

theorem dlookup_merge (c : String) (old new : PyDict (PyDict PyVal))
    (h : nodupKeys new) :
    dlookup c (OptsSpec._merge_options old new) =
      match dlookup c new with
      | some opts => some (updateDict ((dlookup c old).getD []) opts)
      | none => dlookup c old := by
  induction new generalizing old with
  | nil => simp [OptsSpec._merge_options, dlookup]
  | cons p ps ih =>
    unfold nodupKeys at h
    simp only [List.map_cons, List.nodup_cons] at h
    have step : OptsSpec._merge_options old (p :: ps) =
        OptsSpec._merge_options (OptsSpec.merge_one old p) ps := rfl
    rw [step, ih _ h.2]
    by_cases h2 : p.1 = c
    · have hn : dlookup c ps = none := by
        apply dlookup_eq_none_of_not_mem
        rw [← h2]
        exact h.1
      simp only [dlookup, if_pos h2, hn, dlookup_merge_one, h2, if_true, ite_self,
        if_pos rfl]
    · simp only [dlookup, if_neg h2, dlookup_merge_one]

end HV

namespace HV

/-- C2: `_merge_options` merges the two option dictionaries key-wise per
category: for every category and option name, a binding present in
`new_opts` wins and any other binding of `old_opts` survives — never a
wholesale replacement of the earlier category dictionary; consequently
parsing a line naming the same path twice with different style keys
(as produced for `A (x=1) A (y=2)`) yields the key-wise union of the
style options. -/
theorem claim_C2 :
    (∀ (old_opts new_opts : PyDict (PyDict PyVal)) (c k : String),
       nodupKeys new_opts → (∀ p ∈ new_opts, nodupKeys p.2) →
       dlookup2 (OptsSpec._merge_options old_opts new_opts) c k =
         oOr (dlookup2 new_opts c k) (dlookup2 old_opts c k))
    ∧ OptsSpec.parse_body evC2
        [OptsSpec.SpecGroup.mk "A" (OptsSpec.GroupOpts.mk none none (some [PTok.str "x=1"])),
         OptsSpec.SpecGroup.mk "A" (OptsSpec.GroupOpts.mk none none (some [PTok.str "y=2"]))] =
      Except.ok [("A", [("style",
        OptsSpec.Options.mk [("x", PyVal.int 1), ("y", PyVal.int 2)])])] := by
  constructor
  · intro old new c k h1 h2
    have hm := dlookup_merge c old new h1
    cases hc : dlookup c new with
    | none =>
      rw [hc] at hm
      simp only [dlookup2, hm, hc, oOr]
    | some opts =>
      rw [hc] at hm
      have hopts : nodupKeys opts := h2 _ (dlookup_mem _ _ _ hc)
      simp only [dlookup2, hm, hc]
      rw [dlookup_updateDict k _ opts hopts]
      cases ho : dlookup c old with
      | none => simp [oOr, dlookup]
      | some d => simp [oOr]
  · decide

/-- Witness for C2 at concrete dictionaries: merging
`{a: {x:1, y:2}}` with `{a: {y:9, z:3}, b: {k:7}}` at category `a`,
key `y` follows the key-wise rule. -/
theorem claim_C2_witness :
    nodupKeys newC2 ∧ (∀ p ∈ newC2, nodupKeys p.2) ∧
    dlookup2 (OptsSpec._merge_options oldC2 newC2) "a" "y" =
      oOr (dlookup2 newC2 "a" "y") (dlookup2 oldC2 "a" "y") :=
  ⟨by decide, by decide, claim_C2.1 oldC2 newC2 "a" "y" (by decide) (by decide)⟩

end HV

namespace HV

/-- C1: the shared scan check of `OptsSpec.parse` and
`CompositorSpec.parse` succeeds exactly when the top-level scan produced
one single match whose consumed prefix, stripped, equals the stripped
line; a single shorter match raises a `SyntaxError` naming the
unconsumed remainder `line[e:]`; and whenever the check fails, both
parse entry points propagate that very error, so no partial result is
ever returned. -/
theorem claim_C1 : ∀ (line : String) (parses : List (Nat × Nat)),
    (Parser.scan_check line parses = Except.ok () ↔
       ∃ se : Nat × Nat, parses = [se] ∧ strip (strTake line se.2) = strip line)
    ∧ (∀ se : Nat × Nat, parses = [se] → strip (strTake line se.2) ≠ strip line →
         Parser.scan_check line parses = Except.error (PyErr.synError
           ("Failed to parse remainder of string: " ++ strDrop line se.2)))
    ∧ (∀ err, Parser.scan_check line parses = Except.error err →
         (∀ ev groups, OptsSpec.parse ev line parses groups = Except.error err) ∧
         (∀ ops ev cgroups,
            CompositorSpec.parse ops ev line parses cgroups = Except.error err)) := by
  intro line parses
  refine ⟨?_, ?_, ?_⟩
  · cases parses with
    | nil => simp [Parser.scan_check]
    | cons p rest =>
      cases rest with
      | nil =>
        simp only [Parser.scan_check]
        split_ifs with h
        · exact iff_of_true rfl ⟨p, rfl, by simpa using h⟩
        · refine iff_of_false (by simp) ?_
          rintro ⟨se, hse, heq⟩
          injection hse with h1 _
          subst h1
          exact h (by simpa using heq)
      | cons q rest2 => simp [Parser.scan_check]
  · intro se hse hne
    subst hse
    have hb : (strip (strTake line se.2) == strip line) = false := by
      simpa using hne
    simp [Parser.scan_check, hb]
  · intro err herr
    constructor
    · intro ev groups
      unfold OptsSpec.parse
      rw [herr]
      rfl
    · intro ops ev cgroups
      unfold CompositorSpec.parse
      rw [herr]
      rfl

/-- Witness for C1 at the line `"Curve x"` with a single scan match
consuming only `"Curve"`: the check raises the remainder-naming error. -/
theorem claim_C1_witness :
    strip (strTake "Curve x" 5) ≠ strip "Curve x" ∧
    Parser.scan_check "Curve x" [(0, 5)] = Except.error (PyErr.synError
      ("Failed to parse remainder of string: " ++ strDrop "Curve x" 5)) :=
  ⟨by decide, (claim_C1 "Curve x" [(0, 5)]).2.1 (0, 5) rfl (by decide)⟩

/-- C3: consecutive path specifications without an options block
accumulate into the pending set; a group carrying at least one option
category flushes the pending set (plus its own path) with that group's
options; a trailing nonempty pending set is emitted with an empty
options mapping — so the bare line `"Curve"` parses to `Curve` mapped to
an empty dictionary. -/
theorem claim_C3 :
    (∀ (active : List String) (gs : List OptsSpec.SpecGroup),
       (∀ g ∈ gs, OptsSpec.has_options g.opts = false) →
       OptsSpec.group_paths_go active gs =
         (if (gs.foldl (fun a g => OptsSpec.setAdd a g.pathspec) active).isEmpty then []
          else [(gs.foldl (fun a g => OptsSpec.setAdd a g.pathspec) active,
                 OptsSpec.emptyGroupOpts)]))
    ∧ (∀ (active : List String) (g : OptsSpec.SpecGroup) (rest : List OptsSpec.SpecGroup),
       OptsSpec.has_options g.opts = true →
       OptsSpec.group_paths_go active (g :: rest) =
         (OptsSpec.setAdd active g.pathspec, g.opts) :: OptsSpec.group_paths_go [] rest)
    ∧ OptsSpec.parse_body (fun _ => none)
        [OptsSpec.SpecGroup.mk "Curve" OptsSpec.emptyGroupOpts] =
      Except.ok [("Curve", [])] := by
  refine ⟨?_, ?_, by decide⟩
  · intro active gs h
    induction gs generalizing active with
    | nil => simp [OptsSpec.group_paths_go]
    | cons g rest ih =>
      have hg : OptsSpec.has_options g.opts = false := h g (List.mem_cons_self _ _)
      simp only [OptsSpec.group_paths_go, hg, Bool.false_eq_true, if_false, List.foldl_cons]
      exact ih _ (fun g' hg' => h g' (List.mem_cons_of_mem _ hg'))
  · intro active g rest hg
    simp [OptsSpec.group_paths_go, hg]

/-- Witness for C3: two bare paths `A B` with no options are grouped
into one pending set emitted with empty options. -/
theorem claim_C3_witness :
    (∀ g ∈ ([OptsSpec.SpecGroup.mk "A" OptsSpec.emptyGroupOpts,
             OptsSpec.SpecGroup.mk "B" OptsSpec.emptyGroupOpts] :
              List OptsSpec.SpecGroup), OptsSpec.has_options g.opts = false) ∧
    OptsSpec.group_paths_go []
        [OptsSpec.SpecGroup.mk "A" OptsSpec.emptyGroupOpts,
         OptsSpec.SpecGroup.mk "B" OptsSpec.emptyGroupOpts] =
      [(["A", "B"], OptsSpec.emptyGroupOpts)] :=
  ⟨by decide, by
    rw [claim_C3.1 [] _ (by decide)]
    rfl⟩

end HV

namespace HV

/-- When none of the four error conditions of `process_normalization`
holds at the boolean level, the claim-level disjunction of error causes
is false. -/
theorem normNoErrCond (opts : List String)
    (h1 : ¬(OptsSpec.norm_flags.any fun o => decide (1 < opts.count o)) = true)
    (h2 : ¬(!opts.all fun o => OptsSpec.norm_flags.contains o) = true)
    (h3 : ¬(opts.contains "+framewise" && opts.contains "-framewise") = true)
    (h4 : ¬(opts.contains "+axiswise" && opts.contains "-axiswise") = true) :
    ¬((∃ o ∈ OptsSpec.norm_flags, 1 < opts.count o) ∨
      (∃ o ∈ opts, o ∉ OptsSpec.norm_flags) ∨
      ("+framewise" ∈ opts ∧ "-framewise" ∈ opts) ∨
      ("+axiswise" ∈ opts ∧ "-axiswise" ∈ opts)) := by
  rintro (hr | hr | hr | hr)
  · apply h1
    simpa using hr
  · have hall : (opts.all fun o => OptsSpec.norm_flags.contains o) = true := by
      cases hall : opts.all fun o => OptsSpec.norm_flags.contains o
      · rw [hall] at h2
        exact absurd rfl h2
      · rfl
    rw [List.all_eq_true] at hall
    obtain ⟨o, ho, hno⟩ := hr
    exact hno ((List.elem_iff).mp (hall o ho))
  · apply h3
    rw [Bool.and_eq_true]
    exact ⟨(List.elem_iff).mpr hr.1, (List.elem_iff).mpr hr.2⟩
  · apply h4
    rw [Bool.and_eq_true]
    exact ⟨(List.elem_iff).mpr hr.1, (List.elem_iff).mpr hr.2⟩

/-- C4 counterexample: the claim says a zero-token normalization list
defaults both flags to false (an entry distinct from absence), but on
the explicitly empty list the code returns `None` — no normalization
entry at all — not a false/false entry. -/
theorem claim_C4_counterexample :
    OptsSpec.process_normalization (some ([] : List String)) = Except.ok none ∧
    (Except.ok none : Except PyErr (Option OptsSpec.Norm)) ≠
      Except.ok (some (OptsSpec.Norm.mk false false)) :=
  ⟨by decide, by decide⟩

/-- C4 (amended): for every valid normalization token list, a single
framewise token yields axiswise false and framewise the token's sign
(symmetrically for a single axiswise token); two or more tokens default
both flags to false, overridden by whichever signed tokens are present;
and an explicitly empty token list — like an absent normalization
block — yields no normalization entry at all (`None`), as distinct from
an entry with false flags. -/
theorem claim_C4 (opts : List String)
    (h1 : ∀ o ∈ OptsSpec.norm_flags, opts.count o ≤ 1)
    (h2 : ∀ o ∈ opts, o ∈ OptsSpec.norm_flags)
    (h3 : ¬("+framewise" ∈ opts ∧ "-framewise" ∈ opts))
    (h4 : ¬("+axiswise" ∈ opts ∧ "-axiswise" ∈ opts)) :
    OptsSpec.process_normalization none = Except.ok none
    ∧ (opts = [] → OptsSpec.process_normalization (some opts) = Except.ok none)
    ∧ (∀ t, opts = [t] → strEndsWith t "framewise" = true →
        OptsSpec.process_normalization (some opts) =
          Except.ok (some (OptsSpec.Norm.mk false (opts.contains "+framewise"))))
    ∧ (∀ t, opts = [t] → strEndsWith t "axiswise" = true →
        strEndsWith t "framewise" = false →
        OptsSpec.process_normalization (some opts) =
          Except.ok (some (OptsSpec.Norm.mk (opts.contains "+axiswise") false)))
    ∧ (2 ≤ opts.length →
        OptsSpec.process_normalization (some opts) =
          Except.ok (some (OptsSpec.Norm.mk (opts.contains "+axiswise")
            (opts.contains "+framewise")))) := by
  have hc1 : (OptsSpec.norm_flags.any fun o => decide (1 < opts.count o)) = false := by
    simp only [List.any_eq_false, decide_eq_true_eq]
    intro o ho
    have := h1 o ho
    omega
  have hc2 : (opts.all fun o => OptsSpec.norm_flags.contains o) = true := by
    simp only [List.all_eq_true]
    intro o ho
    exact (List.elem_iff).mpr (h2 o ho)
  refine ⟨rfl, ?_, ?_, ?_, ?_⟩
  · intro he
    subst he
    rfl
  · intro t ht hend
    subst ht
    have ht4 := h2 t (List.mem_cons_self _ _)
    simp only [OptsSpec.norm_flags, List.mem_cons, List.not_mem_nil, or_false] at ht4
    rcases ht4 with rfl | rfl | rfl | rfl
    · decide
    · decide
    · exact absurd hend (by decide)
    · exact absurd hend (by decide)
  · intro t ht hend hnend
    subst ht
    have ht4 := h2 t (List.mem_cons_self _ _)
    simp only [OptsSpec.norm_flags, List.mem_cons, List.not_mem_nil, or_false] at ht4
    rcases ht4 with rfl | rfl | rfl | rfl
    · exact absurd hnend (by decide)
    · exact absurd hnend (by decide)
    · decide
    · decide
  · intro hlen
    have hne : opts.isEmpty = false := by
      cases opts with
      | nil => simp at hlen
      | cons a l => rfl
    have hl1 : (decide (opts.length = 1)) = false := by
      simp only [decide_eq_false_iff_not]
      omega
    have hex : ¬∃ x ∈ opts, x ∉ OptsSpec.norm_flags := by
      push_neg
      exact h2
    simp [OptsSpec.process_normalization, hc1, hc2, hne, hl1, hex, h3, h4]

/-- Witness for C4 at the single token `+framewise`: axiswise defaults
to false and framewise takes the positive sign. -/
theorem claim_C4_witness :
    (∀ o ∈ OptsSpec.norm_flags, (["+framewise"] : List String).count o ≤ 1) ∧
    OptsSpec.process_normalization (some ["+framewise"]) =
      Except.ok (some (OptsSpec.Norm.mk false true)) :=
  ⟨by decide, by
    have h := (claim_C4 ["+framewise"] (by decide) (by decide) (by decide)
      (by decide)).2.2.1 "+framewise" rfl (by decide)
    exact h⟩

/-- C5: `process_normalization` raises a `SyntaxError` exactly when the
token list contains a repeated flag, a token outside the four admissible
flags, or both signs of the same axis; in particular `+axiswise` with
`+framewise` is accepted and sets both flags true. -/
theorem claim_C5 : ∀ opts : List String,
    ((∃ msg, OptsSpec.process_normalization (some opts) =
        Except.error (PyErr.synError msg)) ↔
      ((∃ o ∈ OptsSpec.norm_flags, 1 < opts.count o) ∨
       (∃ o ∈ opts, o ∉ OptsSpec.norm_flags) ∨
       ("+framewise" ∈ opts ∧ "-framewise" ∈ opts) ∨
       ("+axiswise" ∈ opts ∧ "-axiswise" ∈ opts)))
    ∧ OptsSpec.process_normalization (some ["+axiswise", "+framewise"]) =
        Except.ok (some (OptsSpec.Norm.mk true true)) := by
  intro opts
  refine ⟨?_, by decide⟩
  simp only [OptsSpec.process_normalization]
  split_ifs with h0 h1 h2 h3 h4 h5 h6
  · rw [List.isEmpty_iff] at h0
    subst h0
    simp
  · refine iff_of_true ⟨_, rfl⟩ (Or.inl ?_)
    simpa using h1
  · refine iff_of_true ⟨_, rfl⟩ (Or.inr (Or.inl ?_))
    have h2' : (opts.all fun o => OptsSpec.norm_flags.contains o) = false := by
      cases hall : opts.all fun o => OptsSpec.norm_flags.contains o
      · rfl
      · rw [hall] at h2
        exact absurd h2 (by decide)
    rw [List.all_eq_false] at h2'
    obtain ⟨o, ho, hno⟩ := h2'
    exact ⟨o, ho, fun hm => hno ((List.elem_iff).mpr hm)⟩
  · refine iff_of_true ⟨_, rfl⟩ (Or.inr (Or.inr (Or.inl ?_)))
    rw [Bool.and_eq_true] at h3
    exact ⟨(List.elem_iff).mp h3.1, (List.elem_iff).mp h3.2⟩
  · refine iff_of_true ⟨_, rfl⟩ (Or.inr (Or.inr (Or.inr ?_)))
    rw [Bool.and_eq_true] at h4
    exact ⟨(List.elem_iff).mp h4.1, (List.elem_iff).mp h4.2⟩
  · exact iff_of_false (by simp) (normNoErrCond opts h1 h2 h3 h4)
  · exact iff_of_false (by simp) (normNoErrCond opts h1 h2 h3 h4)
  · exact iff_of_false (by simp) (normNoErrCond opts h1 h2 h3 h4)

end HV

namespace HV

/-- C6 (code bug): with every operation registered, the compositor loop
returns the definitions in left-to-right textual order; but a group with
an unregistered operation makes `opmap[group['op']]` raise a `KeyError`
before the explicit membership check of parser.py line 434 can run, so
the failure is a `KeyError` and never the `SyntaxError` that dead check
(and the spec) promise. -/
theorem claim_C6 :
    CompositorSpec.parse_body ["max"] (fun _ => none)
        [CompositorSpec.CompGroup.mk (some "data") "unknown_op"
          ["A", "*", "B"] "C" none] =
      Except.error (PyErr.keyError "unknown_op")
    ∧ (∀ msg, (Except.error (PyErr.keyError "unknown_op") :
         Except PyErr (List CompositorSpec.CompositorDef)) ≠
         Except.error (PyErr.synError msg))
    ∧ CompositorSpec.parse_body ["max", "min"] (fun _ => none)
        [CompositorSpec.CompGroup.mk (some "data") "max" ["A", "*", "B"] "C" none,
         CompositorSpec.CompGroup.mk (some "display") "min" ["X", "*", "Y"] "Z" none] =
      Except.ok [CompositorSpec.CompositorDef.mk "A * B" "max" "C" "data" [],
                 CompositorSpec.CompositorDef.mk "X * Y" "min" "Z" "display" []] := by
  refine ⟨by decide, ?_, by decide⟩
  intro msg h
  injection h with h2
  exact PyErr.noConfusion h2

/-- The head of `runsByGo` always carries the key of the run being
accumulated. -/
theorem runsByGo_head (p : String → Bool) (ts : List String) (b : Bool)
    (cur : List String) :
    ∃ run rest, Parser.runsByGo p ts b cur = (b, run) :: rest := by
  induction ts generalizing cur with
  | nil => exact ⟨cur.reverse, [], rfl⟩
  | cons t ts ih =>
    by_cases h : (p t == b) = true
    · simp only [Parser.runsByGo, if_pos h]
      exact ih _
    · simp only [Parser.runsByGo, if_neg h]
      exact ⟨cur.reverse, _, rfl⟩

/-- C10: `todict` is total only when the first collected token contains
`'='`: any token sequence whose first token lacks `'='` makes the
grouping loop subscript `grouped[-1]` on the empty list, an unhandled
`IndexError` — neither a result nor the documented `SyntaxError`.  In
particular the style block of `"A (foo)"` (collected tokens `["foo"]`)
fails exactly this way. -/
theorem claim_C10 :
    (∀ (abort : Bool) (ev : String → Option (PyDict PyVal)) (t : String)
       (ts : List String), Parser.hasEq t = false →
       Parser.todict_tokens abort ev (t :: ts) = Except.error PyErr.indexError)
    ∧ Parser.todict false (fun _ => none) (some [PTok.str "foo"]) Mode.parens =
        Except.error PyErr.indexError := by
  refine ⟨?_, by decide⟩
  intro abort ev t ts ht
  have hg : Parser.groupKeywords (t :: ts) = none := by
    simp only [Parser.groupKeywords, Parser.runsBy]
    rw [ht]
    obtain ⟨run, rest, hrr⟩ := runsByGo_head Parser.hasEq ts false [t]
    rw [hrr]
    simp [Parser.runStep]
  unfold Parser.todict_tokens
  rw [hg]

/-- Witness for C10: the single token `foo` (no `'='`) makes
`todict_tokens` fail with the index error. -/
theorem claim_C10_witness :
    Parser.hasEq "foo" = false ∧
    Parser.todict_tokens false (fun _ => none) ["foo"] =
      Except.error PyErr.indexError :=
  ⟨by decide, claim_C10.1 false (fun _ => none) "foo" [] (by decide)⟩

/-- Folding the non-aborting evaluation step never fails and computes
the skip-failures fold. -/
theorem foldlM_evalStep_false (ev : String → Option (PyDict PyVal))
    (grouped : List String) (acc : PyDict PyVal) :
    grouped.foldlM (Parser.evalStep false ev) acc =
      Except.ok (grouped.foldl
        (fun kwargs kw0 =>
          match ev (Parser.applyReplacements kw0) with
          | some pairs => updateDict kwargs pairs
          | none => kwargs) acc) := by
  induction grouped generalizing acc with
  | nil => rfl
  | cons g gs ih =>
    cases hev : ev (Parser.applyReplacements g) with
    | none =>
      have hstep : Parser.evalStep false ev acc g = Except.ok acc := by
        simp [Parser.evalStep, hev]
      calc (g :: gs).foldlM (Parser.evalStep false ev) acc
          = Parser.evalStep false ev acc g >>=
              (fun s => gs.foldlM (Parser.evalStep false ev) s) := rfl
        _ = gs.foldlM (Parser.evalStep false ev) acc := by rw [hstep]; rfl
        _ = _ := by rw [ih]; simp [List.foldl_cons, hev]
    | some pairs =>
      have hstep : Parser.evalStep false ev acc g =
          Except.ok (updateDict acc pairs) := by
        simp [Parser.evalStep, hev]
      calc (g :: gs).foldlM (Parser.evalStep false ev) acc
          = Parser.evalStep false ev acc g >>=
              (fun s => gs.foldlM (Parser.evalStep false ev) s) := rfl
        _ = gs.foldlM (Parser.evalStep false ev) (updateDict acc pairs) := by
              rw [hstep]; rfl
        _ = _ := by rw [ih]; simp [List.foldl_cons, hev]

/-- Folding the aborting evaluation step fails with a `SyntaxError` as
soon as some keyword in the list fails to evaluate. -/
theorem foldlM_evalStep_true (ev : String → Option (PyDict PyVal))
    (grouped : List String) (acc : PyDict PyVal) (kw : String)
    (hkw : kw ∈ grouped) (hev : ev (Parser.applyReplacements kw) = none) :
    ∃ msg, grouped.foldlM (Parser.evalStep true ev) acc =
      Except.error (PyErr.synError msg) := by
  induction grouped generalizing acc with
  | nil => simp at hkw
  | cons g gs ih =>
    cases hevg : ev (Parser.applyReplacements g) with
    | none =>
      refine ⟨"Could not evaluate keyword: " ++ Parser.applyReplacements g, ?_⟩
      calc (g :: gs).foldlM (Parser.evalStep true ev) acc
          = Parser.evalStep true ev acc g >>=
              (fun s => gs.foldlM (Parser.evalStep true ev) s) := rfl
        _ = Except.error (PyErr.synError
              ("Could not evaluate keyword: " ++ Parser.applyReplacements g)) := by
              have hstep : Parser.evalStep true ev acc g = Except.error
                  (PyErr.synError
                    ("Could not evaluate keyword: " ++ Parser.applyReplacements g)) := by
                simp [Parser.evalStep, hevg]
              rw [hstep]
              rfl
    | some pairs =>
      have hg : kw ∈ gs := by
        rcases List.mem_cons.mp hkw with h | h
        · subst h
          rw [hevg] at hev
          cases hev
        · exact h
      obtain ⟨msg, hmsg⟩ := ih (updateDict acc pairs) hg
      refine ⟨msg, ?_⟩
      calc (g :: gs).foldlM (Parser.evalStep true ev) acc
          = Parser.evalStep true ev acc g >>=
              (fun s => gs.foldlM (Parser.evalStep true ev) s) := rfl
        _ = gs.foldlM (Parser.evalStep true ev) (updateDict acc pairs) := by
              have hstep : Parser.evalStep true ev acc g =
                  Except.ok (updateDict acc pairs) := by
                simp [Parser.evalStep, hevg]
              rw [hstep]
              rfl
        _ = Except.error (PyErr.synError msg) := hmsg

/-- C7: under the default configuration (abort flag false) `todict`
skips exactly the keywords whose evaluation fails and returns the
dictionary of all remaining successfully evaluated keywords; with the
abort flag set, any failing keyword makes the whole call raise a
`SyntaxError`. -/
theorem claim_C7 :
    (∀ (ev : String → Option (PyDict PyVal)) (tokens grouped : List String),
       Parser.groupKeywords tokens = some grouped →
       Parser.todict_tokens false ev tokens =
         Except.ok (Parser.successFold ev grouped))
    ∧ (∀ (ev : String → Option (PyDict PyVal)) (tokens grouped : List String)
         (kw : String),
       Parser.groupKeywords tokens = some grouped → kw ∈ grouped →
       ev (Parser.applyReplacements kw) = none →
       ∃ msg, Parser.todict_tokens true ev tokens =
         Except.error (PyErr.synError msg))
    ∧ Parser.todict_tokens false evC7 ["a=1", "oops=?", "b=2"] =
        Except.ok [("a", PyVal.int 1), ("b", PyVal.int 2)]
    ∧ Parser.todict_tokens true evC7 ["a=1", "oops=?", "b=2"] =
        Except.error (PyErr.synError "Could not evaluate keyword: oops=?") := by
  refine ⟨?_, ?_, by decide, by decide⟩
  · intro ev tokens grouped hg
    unfold Parser.todict_tokens
    rw [hg]
    exact foldlM_evalStep_false ev grouped []
  · intro ev tokens grouped kw hg hkw hev
    unfold Parser.todict_tokens
    rw [hg]
    exact foldlM_evalStep_true ev grouped [] kw hkw hev

/-- Witness for C7: with `a=1` evaluating and `broken` failing, the
default mode returns the surviving keyword and the abort mode raises. -/
theorem claim_C7_witness :
    Parser.groupKeywords ["a=1", "broken=?"] = some ["a=1", "broken=?"] ∧
    Parser.todict_tokens false evC7 ["a=1", "broken=?"] =
      Except.ok (Parser.successFold evC7 ["a=1", "broken=?"]) ∧
    (∃ msg, Parser.todict_tokens true evC7 ["a=1", "broken=?"] =
      Except.error (PyErr.synError msg)) :=
  ⟨by decide,
   claim_C7.1 evC7 ["a=1", "broken=?"] ["a=1", "broken=?"] (by decide),
   claim_C7.2.1 evC7 ["a=1", "broken=?"] ["a=1", "broken=?"] "broken=?"
     (by decide) (by decide) (by decide)⟩

end HV

namespace HV

/-- A run-accumulation over elements that all share the key closes into
a single run. -/
theorem runsByGo_all (p : String → Bool) (l : List String) (b : Bool)
    (cur : List String) (h : ∀ x ∈ l, p x = b) :
    Parser.runsByGo p l b cur = [(b, cur.reverse ++ l)] := by
  induction l generalizing cur with
  | nil => simp [Parser.runsByGo]
  | cons t ts ih =>
    have ht : (p t == b) = true := by
      rw [h t (List.mem_cons_self _ _)]
      exact beq_self_eq_true b
    simp only [Parser.runsByGo, if_pos ht]
    rw [ih _ (fun x hx => h x (List.mem_cons_of_mem _ hx))]
    simp

/-- A true-keyed run followed only by false-keyed elements produces
exactly two runs. -/
theorem runsByGo_switch (p : String → Bool) (ks elems cur : List String)
    (hks : ∀ x ∈ ks, p x = true) (he : elems ≠ [])
    (helems : ∀ x ∈ elems, p x = false) :
    Parser.runsByGo p (ks ++ elems) true cur =
      [(true, cur.reverse ++ ks), (false, elems)] := by
  induction ks generalizing cur with
  | nil =>
    cases elems with
    | nil => exact absurd rfl he
    | cons e es =>
      have hpe : (p e == true) = false := by
        rw [helems e (List.mem_cons_self _ _)]
        rfl
      simp only [List.nil_append, Parser.runsByGo, hpe, Bool.false_eq_true, if_false]
      rw [helems e (List.mem_cons_self _ _)]
      rw [runsByGo_all p es false [e] (fun x hx => helems x (List.mem_cons_of_mem _ hx))]
      simp
  | cons k ks ih =>
    have hk : (p k == true) = true := by
      rw [hks k (List.mem_cons_self _ _)]
      rfl
    simp only [List.cons_append, Parser.runsByGo, if_pos hk, List.append_eq]
    rw [ih _ (fun x hx => hks x (List.mem_cons_of_mem _ hx))]
    simp

/-- `groupby` of a keyword run followed by a continuation run yields
exactly the two maximal runs. -/
theorem runsBy_two (kws elems : List String) (hk : kws ≠ [])
    (h1 : ∀ k ∈ kws, Parser.hasEq k = true) (he : elems ≠ [])
    (h2 : ∀ e ∈ elems, Parser.hasEq e = false) :
    Parser.runsBy Parser.hasEq (kws ++ elems) = [(true, kws), (false, elems)] := by
  cases kws with
  | nil => exact absurd rfl hk
  | cons k0 ks =>
    simp only [List.cons_append, Parser.runsBy, List.append_eq]
    rw [h1 k0 (List.mem_cons_self _ _)]
    rw [runsByGo_switch Parser.hasEq ks elems [k0]
      (fun x hx => h1 x (List.mem_cons_of_mem _ hx)) he h2]
    simp

/-- C8 counterexample: the claim joins a continuation with commas only
when it contains an UNMATCHED closing bracket, so for the token `(x)`
(whose `)` is matched) it predicts the joiner-free `a=1(x)`; the code
tests bare containment of `)`/`}` and produces `a=1,(x)`. -/
theorem claim_C8_counterexample :
    Parser.groupKeywords ["a=1", "(x)"] = some ["a=1,(x)"] ∧
    (some ["a=1,(x)"] : Option (List String)) ≠ some ["a=1(x)"] :=
  ⟨by decide, by decide⟩

/-- C8 (amended): each maximal run of tokens without `'='` is appended
as a continuation to the single most recent keyword token, joined with
commas exactly when some token of the run contains a closing bracket
character `')'` or `'}'` anywhere — matched or unmatched — and joined
with no separator otherwise. -/
theorem claim_C8 :
    (∀ (L : List String) (b : String) (elems : List String),
       (∀ k ∈ L ++ [b], Parser.hasEq k = true) →
       elems ≠ [] → (∀ e ∈ elems, Parser.hasEq e = false) →
       Parser.groupKeywords (L ++ [b] ++ elems) =
         some (L ++ [b ++ Parser.joinerOf elems ++
           String.intercalate (Parser.joinerOf elems) elems]))
    ∧ Parser.groupKeywords ["a=1", "x)", "b=2", "yz"] = some ["a=1,x)", "b=2yz"] := by
  refine ⟨?_, by decide⟩
  intro L b elems h1 he h2
  unfold Parser.groupKeywords
  rw [runsBy_two (L ++ [b]) elems (by simp) h1 he h2]
  have hs1 : Parser.runStep [] (true, L ++ [b]) = some (L ++ [b]) := by
    simp [Parser.runStep]
  have hs2 : Parser.runStep (L ++ [b]) (false, elems) =
      some (L ++ [b ++ Parser.joinerOf elems ++
        String.intercalate (Parser.joinerOf elems) elems]) := by
    simp [Parser.runStep, List.getLast?_concat, List.dropLast_concat, Parser.joinerOf]
  calc List.foldlM Parser.runStep [] [(true, L ++ [b]), (false, elems)]
      = Parser.runStep [] (true, L ++ [b]) >>=
          (fun s => List.foldlM Parser.runStep s [(false, elems)]) := rfl
    _ = List.foldlM Parser.runStep (L ++ [b]) [(false, elems)] := by rw [hs1]; rfl
    _ = Parser.runStep (L ++ [b]) (false, elems) >>=
          (fun s => List.foldlM Parser.runStep s []) := rfl
    _ = some (L ++ [b ++ Parser.joinerOf elems ++
          String.intercalate (Parser.joinerOf elems) elems]) := by rw [hs2]; rfl

/-- Witness for C8: the keyword `a=1` followed by the continuation run
`x`, `y)` (which contains a closing bracket) is comma-joined. -/
theorem claim_C8_witness :
    (∀ k ∈ (([] ++ ["a=1"]) : List String), Parser.hasEq k = true) ∧
    Parser.groupKeywords ([] ++ ["a=1"] ++ ["x", "y)"]) =
      some ([] ++ ["a=1" ++ Parser.joinerOf ["x", "y)"] ++
        String.intercalate (Parser.joinerOf ["x", "y)"]) ["x", "y)"]]) :=
  ⟨by decide,
   claim_C8.1 [] "a=1" ["x", "y)"] (by decide) (by decide) (by decide)⟩

/-- `_strip_commas` is the identity on a nonempty token with no leading
or trailing comma. -/
theorem strip_commas_id (t : String) (h1 : t.data ≠ [])
    (h2 : t.data.getLast? ≠ some ',') (h3 : t.data.head? ≠ some ',') :
    Parser._strip_commas t = some t := by
  cases hd : t.data with
  | nil => exact absurd hd h1
  | cons c cs =>
    have h2' : ((c :: cs).getLast? == some ',') = false := by
      rw [← hd]
      exact beq_false_of_ne h2
    have hcn : c ≠ ',' := by
      intro hc
      apply h3
      rw [hd, hc]
      rfl
    have h3' : (c == ',') = false := beq_false_of_ne hcn
    simp only [Parser._strip_commas, hd, h2', Bool.false_eq_true, if_false, h3']
    rw [← hd]

/-- Stripping is the identity run over a list of already-clean tokens. -/
theorem stripAll_id (l : List String)
    (h : ∀ t ∈ l, Parser._strip_commas t = some t) :
    Parser.stripAll l = some l := by
  induction l with
  | nil => rfl
  | cons t ts ih =>
    simp only [Parser.stripAll, h t (List.mem_cons_self _ _),
      ih (fun x hx => h x (List.mem_cons_of_mem _ hx))]

/-- Flat token collection is the bare-comma filter followed by the
one-comma-per-side strip, threaded through the accumulator. -/
theorem collect_go_flat (m : Mode) (ss acc : List String) :
    Parser.collect_go m (ss.map PTok.str) acc =
      (Parser.stripAll (ss.filter (fun s => !(strip s == ",")))).map
        (fun ts => acc ++ ts) := by
  induction ss generalizing acc with
  | nil => simp [Parser.collect_go, Parser.stripAll]
  | cons s rest ih =>
    by_cases hc : strip s = ","
    · have hf : (!(strip s == ",")) = false := by simp [hc]
      simp only [List.map_cons, Parser.collect_go, if_pos hc, List.filter_cons, hf,
        Bool.false_eq_true, if_false]
      exact ih acc
    · have hf : (!(strip s == ",")) = true := by simp [hc]
      simp only [List.map_cons, Parser.collect_go, if_neg hc, List.filter_cons, hf,
        if_true]
      cases hs : Parser._strip_commas s with
      | none => simp [Parser.stripAll, hs]
      | some kw =>
        simp only [hs]
        rw [ih (acc ++ [kw])]
        simp only [Parser.stripAll, hs]
        cases Parser.stripAll (rest.filter fun s => !(strip s == ",")) with
        | none => rfl
        | some ts => simp

/-- C9 counterexample: collection strips only ONE leading comma, so
collecting `[",,a"]` yields `[",a"]`, and collecting that output again
yields `["a"]` — the collection step is not idempotent on flat input as
the claim states. -/
theorem claim_C9_counterexample :
    Parser.collect_tokens (some [PTok.str ",,a"]) Mode.parens = some [",a"] ∧
    Parser.collect_tokens (some [PTok.str ",a"]) Mode.parens = some ["a"] ∧
    ([",a"] : List String) ≠ ["a"] :=
  ⟨by decide, by decide, by decide⟩

/-- C9 (amended): on flat input, `collect_tokens` preserves left-to-right
order, drops every scalar token that strips to a bare comma, and strips
at most ONE leading and ONE trailing comma from each remaining token
(so it equals the filter-then-strip pipeline); it is idempotent on flat
input whose collected tokens are nonempty, not bare commas, and carry no
leading or trailing comma — but not in general (e.g. not on `",,a"`). -/
theorem claim_C9 :
    (∀ (m : Mode) (ss : List String),
       Parser.collect_tokens (some (ss.map PTok.str)) m =
         Parser.stripAll (ss.filter (fun s => !(strip s == ","))))
    ∧ (∀ (m : Mode) (ss out : List String),
       Parser.collect_tokens (some (ss.map PTok.str)) m = some out →
       (∀ t ∈ out, t.data ≠ [] ∧ strip t ≠ "," ∧ t.data.head? ≠ some ',' ∧
         t.data.getLast? ≠ some ',') →
       Parser.collect_tokens (some (out.map PTok.str)) m = some out) := by
  have hpart1 : ∀ (m : Mode) (ss : List String),
      Parser.collect_tokens (some (ss.map PTok.str)) m =
        Parser.stripAll (ss.filter (fun s => !(strip s == ","))) := by
    intro m ss
    show Parser.collect_go m (ss.map PTok.str) [] = _
    rw [collect_go_flat]
    cases Parser.stripAll (ss.filter fun s => !(strip s == ",")) with
    | none => rfl
    | some ts => simp
  refine ⟨hpart1, ?_⟩
  intro m ss out hcoll hcond
  rw [hpart1 m out]
  have hfilter : out.filter (fun s => !(strip s == ",")) = out := by
    rw [List.filter_eq_self]
    intro t ht
    simp [(hcond t ht).2.1]
  rw [hfilter]
  exact stripAll_id out (fun t ht => strip_commas_id t (hcond t ht).1
    (hcond t ht).2.2.2 (hcond t ht).2.2.1)

/-- Witness for C9: collecting `["a", ",b,", " , "]` drops the bare
comma, strips `,b,` to `b`, and re-collecting the clean output
`["a", "b"]` leaves it unchanged. -/
theorem claim_C9_witness :
    Parser.collect_tokens (some ((["a", ",b,", " , "] : List String).map PTok.str))
        Mode.parens = some ["a", "b"] ∧
    (∀ t ∈ (["a", "b"] : List String), t.data ≠ [] ∧ strip t ≠ "," ∧
      t.data.head? ≠ some ',' ∧ t.data.getLast? ≠ some ',') ∧
    Parser.collect_tokens (some ((["a", "b"] : List String).map PTok.str))
        Mode.parens = some ["a", "b"] :=
  ⟨by decide, by decide,
   claim_C9.2 Mode.parens ["a", ",b,", " , "] ["a", "b"] (by decide) (by decide)⟩

end HV
